import Mathlib

/-!
# Verification of the contact-attribution engine and its frontend consumers

This development gives a shallow embedding of the HHB closings-analysis
system.  The repository snapshot ships only the React frontend
(`frontend/src/...`) together with the TypeScript declarations of the
engine's output records (`AnalysisResult`, `SummaryStats`); the Flask/Pandas
attribution engine itself (address normalization, three-tier matching, tag
parsing, attribution, summary aggregation) is not part of the snapshot.
Definitions of the engine below are therefore modelled from the
specification's §4 component contracts, and are marked as such in their
doc comments; definitions of frontend behaviour (result-table sorting,
contact-count distribution, the output field list) are translated from the
TypeScript sources present in the snapshot.
-/

set_option maxRecDepth 4096

namespace HHB

/-- A calendar date.  Tag events carry only month/year; the engine defaults
the day-of-month (the model uses the first of the month, one of the
conventions the spec's §9 open question allows). -/
structure Date where
  year : Nat
  month : Nat
  day : Nat
deriving DecidableEq, Repr

/-- Strict lexicographic (year, month, day) comparison of dates. -/
def Date.ltb (a b : Date) : Bool :=
  a.year < b.year ||
    (a.year = b.year &&
      (a.month < b.month || (a.month = b.month && a.day < b.day)))

/-- `true` on Gregorian leap years. -/
def isLeapYear (y : Nat) : Bool :=
  (y % 4 = 0 && !(y % 100 = 0)) || y % 400 = 0

/-- Day lengths of the twelve months of a common year. -/
def monthLengths : List Nat := [31, 28, 31, 30, 31, 30, 31, 31, 30, 31, 30, 31]

/-- Days in the years `0, ..., y-1` of the proleptic Gregorian calendar. -/
def daysBeforeYear (y : Nat) : Nat :=
  365 * y + (y + 3) / 4 - (y + 99) / 100 + (y + 399) / 400

/-- Days elapsed in a year before month `m` (1-based) begins. -/
def daysBeforeMonth (m : Nat) (leap : Bool) : Nat :=
  ((monthLengths.take (m - 1)).sum) + (if leap && 2 < m then 1 else 0)

/-- Absolute day number of a date; differences of day numbers give the
day-count statistics (`days_to_close`, `days_since_last_contact`). -/
def Date.toDayNumber (d : Date) : Nat :=
  daysBeforeYear d.year + daysBeforeMonth d.month (isLeapYear d.year) + d.day

/-- The three outreach channels tracked by the tag format (§3). -/
inductive Channel
  | CC
  | SMS
  | DM
deriving DecidableEq, Repr

/-- Display name of a channel, used by the timeline rendering. -/
def Channel.name : Channel → String
  | .CC => "CC"
  | .SMS => "SMS"
  | .DM => "DM"

/-- A parsed unit of the contact-history tag string (§3 `ContactEvent`). -/
structure ContactEvent where
  channel : Channel
  event_date : Date
deriving DecidableEq, Repr

/-- One closed transaction (§3 `DealRecord`). -/
structure DealRecord where
  address : String
  date_closed : Date
  lead_source : String
deriving DecidableEq, Repr

/-- One contact-history row (§3 `ContactRecord`). -/
structure ContactRecord where
  address : String
  tags : String
deriving DecidableEq, Repr

/-- Modelled from the spec: the output of `AddressNormalizer.normalize`
(§4.1); the Python implementation is absent from the snapshot. -/
structure NormalizedAddress where
  full : String
  street_only : String
  street_number : Option String
  city : Option String
deriving DecidableEq, Repr

/-- Characters surviving the punctuation strip of §4.1: letters, digits and
spaces.  The unit marker `#` is retained through this stage so that `#12`
unit designators stay recognizable for the removal step, which §4.1
requires to strip them. -/
def keepChar (c : Char) : Bool :=
  c.isAlpha || c.isDigit || c = ' ' || c = '#'

/-- ASCII lowercasing of one character. -/
def lowerChar (c : Char) : Char :=
  if 'A' ≤ c && c ≤ 'Z' then Char.ofNat (c.toNat + 32) else c

/-- Split a character list at every occurrence of `sep` (the segments
between separators, separators dropped). -/
def splitOnChar (sep : Char) : List Char → List (List Char)
  | [] => [[]]
  | c :: cs =>
    match splitOnChar sep cs with
    | [] => if c = sep then [[], []] else [[c]]
    | seg :: rest =>
      if c = sep then [] :: seg :: rest else (c :: seg) :: rest

/-- Lowercase and strip punctuation (§4.1, steps 1–2). -/
def cleanChars (cs : List Char) : List Char :=
  (cs.map lowerChar).filter keepChar

/-- Modelled from the spec: lowercase, strip punctuation, and split into
whitespace-collapsed tokens (§4.1, steps 1–3). -/
def tokenize (cs : List Char) : List String :=
  (((splitOnChar ' ' (cleanChars cs)).filter (fun t => !t.isEmpty)).map
    (fun t => t.asString))

/-- Modelled from the spec: the fixed bidirectional street-type and
directional dictionary of §4.1, collapsing abbreviation and full form to a
single canonical token. -/
def canonToken (t : String) : String :=
  if t = "st" || t = "street" then "street"
  else if t = "ave" || t = "avenue" then "avenue"
  else if t = "dr" || t = "drive" then "drive"
  else if t = "ln" || t = "lane" then "lane"
  else if t = "rd" || t = "road" then "road"
  else if t = "ct" || t = "court" then "court"
  else if t = "blvd" || t = "boulevard" then "boulevard"
  else if t = "pl" || t = "place" then "place"
  else if t = "n" || t = "north" then "north"
  else if t = "s" || t = "south" then "south"
  else if t = "e" || t = "east" then "east"
  else if t = "w" || t = "west" then "west"
  else t

/-- Unit/suite/apartment designators whose token and trailing value are
removed by §4.1. -/
def isUnitDesignator (t : String) : Bool :=
  t = "apt" || t = "apartment" || t = "suite" || t = "unit"

/-- `true` when a token begins with the `#` unit marker. -/
def startsWithHash (t : String) : Bool :=
  match t.data with
  | c :: _ => c = '#'
  | [] => false

/-- Modelled from the spec: remove unit designators and their trailing
value (`apt 4`, `suite 200`, `#12`) from a token list (§4.1). -/
def removeUnits : List String → List String
  | [] => []
  | t :: rest =>
    if startsWithHash t then removeUnits rest
    else if isUnitDesignator t then
      match rest with
      | [] => []
      | _ :: rest' => removeUnits rest'
    else t :: removeUnits rest

/-- `true` on nonempty all-digit tokens (candidate street numbers). -/
def isNumericToken (t : String) : Bool :=
  !t.data.isEmpty && t.data.all Char.isDigit

/-- Rejoin a token list with single spaces. -/
def joinTokens : List String → String
  | [] => ""
  | [t] => t
  | t :: rest => t ++ " " ++ joinTokens rest

/-- Modelled from the spec: `AddressNormalizer.normalize` (§4.1), absent
from the snapshot.  Pure and total; the comma-delimited tail segment, when
present, is the city segment, and `street_only` is computed from the
pre-comma segment with units removed. -/
def normalize (raw : String) : NormalizedAddress :=
  let segs := splitOnChar ',' raw.data
  let streetToks := removeUnits ((tokenize (segs.headD [])).map canonToken)
  let cityToks :=
    match segs with
    | _ :: c :: _ => removeUnits ((tokenize c).map canonToken)
    | _ => []
  let fullToks := removeUnits ((tokenize raw.data).map canonToken)
  { full := joinTokens fullToks
    street_only := joinTokens streetToks
    street_number :=
      match streetToks.head? with
      | some t => if isNumericToken t then some t else none
      | none => none
    city := if cityToks.isEmpty then none else some (joinTokens cityToks) }

/-- Consume one expected literal character. -/
def expectChar (c : Char) : List Char → Option (List Char)
  | [] => none
  | x :: xs => if x = c then some xs else none

/-- Consume exactly `n` digit characters, accumulating their value. -/
def expectDigits : Nat → Nat → List Char → Option (Nat × List Char)
  | 0, acc, cs => some (acc, cs)
  | _ + 1, _, [] => none
  | n + 1, acc, x :: xs =>
    if x.isDigit then expectDigits n (acc * 10 + (x.toNat - 48)) xs else none

/-- Consume a channel token (`CC`, `SMS` or `DM`), case-insensitively. -/
def matchChannelTok : List Char → Option (Channel × List Char)
  | c1 :: c2 :: c3 :: rest =>
    if lowerChar c1 = 's' && lowerChar c2 = 'm' && lowerChar c3 = 's' then
      some (Channel.SMS, rest)
    else if lowerChar c1 = 'c' && lowerChar c2 = 'c' then some (Channel.CC, c3 :: rest)
    else if lowerChar c1 = 'd' && lowerChar c2 = 'm' then some (Channel.DM, c3 :: rest)
    else none
  | c1 :: c2 :: rest =>
    if lowerChar c1 = 'c' && lowerChar c2 = 'c' then some (Channel.CC, rest)
    else if lowerChar c1 = 'd' && lowerChar c2 = 'm' then some (Channel.DM, rest)
    else none
  | _ => none

/-- Modelled from the spec: try to recognize one tag entry
`(<id>) <CHANNEL> - <MM>-<YYYY>` (§4.3, §6) at the head of the character
stream, returning the parsed event and the remaining characters.  The
numeric campaign id is consumed and ignored; the day-of-month is defaulted
to the first of the month. -/
def matchEventAt (cs : List Char) : Option (ContactEvent × List Char) :=
  (expectChar '(' cs).bind fun r1 =>
  let ds := r1.takeWhile Char.isDigit
  let r2 := r1.dropWhile Char.isDigit
  if ds.isEmpty then none else
  (expectChar ')' r2).bind fun r3 =>
  (expectChar ' ' r3).bind fun r4 =>
  (matchChannelTok r4).bind fun p =>
  (expectChar ' ' p.2).bind fun r5 =>
  (expectChar '-' r5).bind fun r6 =>
  (expectChar ' ' r6).bind fun r7 =>
  (expectDigits 2 0 r7).bind fun q =>
  (expectChar '-' q.2).bind fun r8 =>
  (expectDigits 4 0 r8).map fun w =>
  ({ channel := p.1, event_date := { year := w.1, month := q.1, day := 1 } }, w.2)

/-- Fuelled form of the tag-scanning loop; one unit of fuel is spent per
step, and every step consumes at least one character, so `cs.length` fuel
always suffices (`parseFuel_irrel`). -/
def parseFuel : Nat → List Char → List ContactEvent
  | 0, _ => []
  | fuel + 1, cs =>
    match matchEventAt cs with
    | some (e, rest) => e :: parseFuel fuel rest
    | none =>
      match cs with
      | [] => []
      | _ :: cs' => parseFuel fuel cs'

/-- Modelled from the spec: the left-to-right, non-overlapping scan of
`TagParser.parse` (§4.3): at each position the entry pattern is tried; a
hit is emitted and scanning resumes after the consumed entry, otherwise
one character is skipped. -/
def parseEvents (cs : List Char) : List ContactEvent :=
  parseFuel cs.length cs

/-- Modelled from the spec: `TagParser.parse` (§4.3), absent from the
snapshot.  Total; unrecognized fragments are skipped, never errored. -/
def parse (tags : String) : List ContactEvent :=
  parseEvents tags.data

/-- Tier 1 (§4.2): the candidate's full normalized address equals the
deal's. -/
def tier1Matches (nd : NormalizedAddress) (c : ContactRecord) : Bool :=
  (normalize c.address).full = nd.full

/-- Tier 2 (§4.2): the candidate's `street_only` equals the deal's. -/
def tier2Matches (nd : NormalizedAddress) (c : ContactRecord) : Bool :=
  (normalize c.address).street_only = nd.street_only

/-- Tier 3 (§4.2): the candidate's `street_number` and `city` both equal
the deal's. -/
def tier3Matches (nd : NormalizedAddress) (c : ContactRecord) : Bool :=
  (normalize c.address).street_number = nd.street_number &&
    (normalize c.address).city = nd.city

/-- Modelled from the spec: `MatchEngine.match` (§4.2), absent from the
snapshot.  The three tiers are evaluated in order; the first tier with a
candidate terminates the search, ties resolved to the first candidate in
the contact dataset's input order (which is what the per-tier index built
over the input sequence returns). -/
def matchContact (deal : DealRecord) (contacts : List ContactRecord) :
    Option ContactRecord :=
  let nd := normalize deal.address
  match contacts.find? (tier1Matches nd) with
  | some c => some c
  | none =>
    match contacts.find? (tier2Matches nd) with
    | some c => some c
    | none => contacts.find? (tier3Matches nd)

/-- One output row per deal (§3 `MatchedResult`). -/
structure MatchedResult where
  address : String
  date_closed : Date
  lead_source : String
  total_contacts : Nat
  cc_count : Nat
  sms_count : Nat
  dm_count : Nat
  first_contact_date : Option Date
  last_contact_date : Option Date
  days_to_close : Option Int
  days_since_last_contact : Option Int
  contact_timeline : String
  match_found : Bool
deriving DecidableEq, Repr

/-- Earlier of two dates (left-biased on ties). -/
def Date.minB (a b : Date) : Date := if Date.ltb b a then b else a

/-- Later of two dates (left-biased on ties). -/
def Date.maxB (a b : Date) : Date := if Date.ltb a b then b else a

/-- Earliest `event_date` of an event list, `none` when empty. -/
def firstEventDate : List ContactEvent → Option Date
  | [] => none
  | e :: es => some (es.foldl (fun acc ev => Date.minB acc ev.event_date) e.event_date)

/-- Latest `event_date` of an event list, `none` when empty. -/
def lastEventDate : List ContactEvent → Option Date
  | [] => none
  | e :: es => some (es.foldl (fun acc ev => Date.maxB acc ev.event_date) e.event_date)

/-- Zero-padded two-digit rendering of a month number. -/
def pad2 (n : Nat) : String :=
  if n < 10 then "0" ++ toString n else toString n

/-- One timeline entry: channel plus month-year. -/
def renderEvent (e : ContactEvent) : String :=
  e.channel.name ++ " " ++ pad2 e.event_date.month ++ "-" ++ toString e.event_date.year

/-- Chronological, human-readable rendering of the qualifying events
(§4.4 `contact_timeline`). -/
def renderTimeline (evs : List ContactEvent) : String :=
  String.intercalate ", "
    ((evs.insertionSort
        (fun a b => Date.ltb b.event_date a.event_date = false)).map renderEvent)

/-- Modelled from the spec: `ContactAttributor.attribute` (§4.4), absent
from the snapshot.  Only events strictly before the close date are
counted; a matched contact with no qualifying events keeps
`match_found = true` with zero counts; an unmatched deal gets zero counts
and null dates. -/
def attributeDeal (asOf : Date) (deal : DealRecord)
    (matched : Option ContactRecord) : MatchedResult :=
  match matched with
  | none =>
    { address := deal.address
      date_closed := deal.date_closed
      lead_source := deal.lead_source
      total_contacts := 0, cc_count := 0, sms_count := 0, dm_count := 0
      first_contact_date := none, last_contact_date := none
      days_to_close := none, days_since_last_contact := none
      contact_timeline := "", match_found := false }
  | some c =>
    let evs := (parse c.tags).filter
      (fun e => Date.ltb e.event_date deal.date_closed)
    let cc := evs.countP (fun e => e.channel == Channel.CC)
    let sms := evs.countP (fun e => e.channel == Channel.SMS)
    let dm := evs.countP (fun e => e.channel == Channel.DM)
    let first := firstEventDate evs
    let last := lastEventDate evs
    { address := deal.address
      date_closed := deal.date_closed
      lead_source := deal.lead_source
      total_contacts := cc + sms + dm
      cc_count := cc, sms_count := sms, dm_count := dm
      first_contact_date := first
      last_contact_date := last
      days_to_close := first.map
        (fun f => (deal.date_closed.toDayNumber : Int) - (f.toDayNumber : Int))
      days_since_last_contact := last.map
        (fun l => (asOf.toDayNumber : Int) - (l.toDayNumber : Int))
      contact_timeline := renderTimeline evs
      match_found := true }

/-- The per-deal unit of work: match, parse, attribute (§2 data flow). -/
def processDeal (asOf : Date) (contacts : List ContactRecord)
    (deal : DealRecord) : MatchedResult :=
  attributeDeal asOf deal (matchContact deal contacts)

/-- Modelled from the spec: one full engine run (§2, §6): one
`MatchedResult` per deal, in input deal order. -/
def runAnalysis (asOf : Date) (deals : List DealRecord)
    (contacts : List ContactRecord) : List MatchedResult :=
  deals.map (processDeal asOf contacts)

/-- One summary object per run (§3 `SummaryStats`); the rate and the
means/medians are kept as exact rationals prior to presentation-side
formatting. -/
structure SummaryStats where
  Total_Deals : Nat
  Matched_Deals : Nat
  Unmatched_Deals : Nat
  Match_Rate : ℚ
  Average_Contacts_per_Deal : ℚ
  Median_Contacts_per_Deal : ℚ
  Max_Contacts : Nat
  Min_Contacts : Nat
  Total_CC_Contacts : Nat
  Total_SMS_Contacts : Nat
  Total_DM_Contacts : Nat
  Average_Days_to_Close : Option ℚ
  Median_Days_to_Close : Option ℚ
deriving DecidableEq, Repr

/-- Middle element, or average of the two middles, of the sorted multiset
(§4.5); `0` on the empty list. -/
def medianQ (l : List ℚ) : ℚ :=
  let s := l.insertionSort (· ≤ ·)
  if s.length = 0 then 0
  else if s.length % 2 = 1 then s.getD (s.length / 2) 0
  else (s.getD (s.length / 2 - 1) 0 + s.getD (s.length / 2) 0) / 2

/-- Modelled from the spec: `StatsAggregator.aggregate` (§4.5), absent
from the snapshot.  Pure and total over any input including the empty
list; the match rate and every mean/median fall back to `0` (counts,
rates) or `null` (day statistics) on an empty contributing subset instead
of dividing by zero. -/
def aggregate (results : List MatchedResult) : SummaryStats :=
  let total := results.length
  let matchedL := results.filter (fun r => r.match_found)
  let matched := matchedL.length
  let unmatched := (results.filter (fun r => !r.match_found)).length
  let contacts := matchedL.map (fun r => (r.total_contacts : ℚ))
  let days := (matchedL.filterMap (fun r => r.days_to_close)).map
    (fun d => (d : ℚ))
  { Total_Deals := total
    Matched_Deals := matched
    Unmatched_Deals := unmatched
    Match_Rate := if total = 0 then 0 else (matched : ℚ) / (total : ℚ)
    Average_Contacts_per_Deal :=
      if matched = 0 then 0 else contacts.sum / (matched : ℚ)
    Median_Contacts_per_Deal := medianQ contacts
    Max_Contacts := (matchedL.map (fun r => r.total_contacts)).foldr max 0
    Min_Contacts :=
      match matchedL.map (fun r => r.total_contacts) with
      | [] => 0
      | x :: xs => xs.foldl min x
    Total_CC_Contacts := (matchedL.map (fun r => r.cc_count)).sum
    Total_SMS_Contacts := (matchedL.map (fun r => r.sms_count)).sum
    Total_DM_Contacts := (matchedL.map (fun r => r.dm_count)).sum
    Average_Days_to_Close :=
      if days.isEmpty then none else some (days.sum / (days.length : ℚ))
    Median_Days_to_Close :=
      if days.isEmpty then none else some (medianQ days) }

/-- A per-deal work schedule: `parRun` performs the independent per-deal
units of work in the order given by `sched`, writing each result into its
deal's slot of a preallocated output vector (§5: parallel workers consult
the read-only inputs and write by input index, never a shared cursor). -/
def parRun (sched : List Nat) (asOf : Date) (deals : List DealRecord)
    (contacts : List ContactRecord) : List (Option MatchedResult) :=
  sched.foldl
    (fun acc i =>
      match deals[i]? with
      | some d => acc.set i (some (processDeal asOf contacts d))
      | none => acc)
    (List.replicate deals.length none)

/-- The field names of the `AnalysisResult` output interface in
declaration order, each paired with whether its TypeScript type is
nullable (`... | null`); transcribed from `src/unnamed/part_003`,
lines 1–15. -/
def analysisResultFields : List (String × Bool) :=
  [("Address", false), ("Date_Closed", false), ("Lead_Source", false),
   ("Total_Contacts", false), ("CC_Count", false), ("SMS_Count", false),
   ("DM_Count", false), ("First_Contact_Date", true),
   ("Last_Contact_Date", true), ("Days_to_Close", true),
   ("Days_Since_Last_Contact", true), ("Contact_Timeline", false),
   ("Match_Found", false)]

/-- One result row as consumed by the frontend; transcribed from the
`AnalysisResult` interface of `src/unnamed/part_003` (count fields are
the engine's per-channel tallies, day fields are day differences). -/
structure AnalysisResult where
  Address : String
  Date_Closed : String
  Lead_Source : String
  Total_Contacts : Nat
  CC_Count : Nat
  SMS_Count : Nat
  DM_Count : Nat
  First_Contact_Date : Option String
  Last_Contact_Date : Option String
  Days_to_Close : Option Int
  Days_Since_Last_Contact : Option Int
  Contact_Timeline : String
  Match_Found : Bool
deriving DecidableEq, Repr

/-- A JavaScript value as seen by `ResultsTable`'s comparator: null (or
undefined), a string, a number, or a boolean. -/
inductive JSValue
  | null
  | str (s : String)
  | num (n : Int)
  | bool (b : Bool)
deriving DecidableEq, Repr

/-- A sortable column key (`keyof AnalysisResult`). -/
inductive FieldKey
  | address | dateClosed | leadSource | totalContacts | ccCount | smsCount
  | dmCount | firstContactDate | lastContactDate | daysToClose
  | daysSinceLastContact | contactTimeline | matchFound
deriving DecidableEq, Repr

/-- Field access `row[key]` of `ResultsTable`'s comparator; nullable
fields holding `null` surface as `JSValue.null`. -/
def getField (r : AnalysisResult) : FieldKey → JSValue
  | .address => .str r.Address
  | .dateClosed => .str r.Date_Closed
  | .leadSource => .str r.Lead_Source
  | .totalContacts => .num r.Total_Contacts
  | .ccCount => .num r.CC_Count
  | .smsCount => .num r.SMS_Count
  | .dmCount => .num r.DM_Count
  | .firstContactDate =>
    match r.First_Contact_Date with
    | some s => .str s
    | none => .null
  | .lastContactDate =>
    match r.Last_Contact_Date with
    | some s => .str s
    | none => .null
  | .daysToClose =>
    match r.Days_to_Close with
    | some d => .num d
    | none => .null
  | .daysSinceLastContact =>
    match r.Days_Since_Last_Contact with
    | some d => .num d
    | none => .null
  | .contactTimeline => .str r.Contact_Timeline
  | .matchFound => .bool r.Match_Found

/-- Sort direction of `ResultsTable`'s `sortConfig`. -/
inductive SortDirection
  | asc
  | desc
deriving DecidableEq, Repr

/-- `String.prototype.localeCompare`, modelled as code-point comparison
collapsed to the sign. -/
def localeCompare (a b : String) : Int :=
  match compare a b with
  | .lt => -1
  | .eq => 0
  | .gt => 1

/-- The comparator of `ResultsTable.sortedResults`
(`src/frontend/src/components/MethodologySection.tsx`, lines 55–73):
null/undefined on the left sorts as greater regardless of direction,
null/undefined on the right as smaller; strings compare by
`localeCompare`, numbers by subtraction, anything else ties. -/
def jsCompare (dir : SortDirection) (a b : JSValue) : Int :=
  if a = JSValue.null then 1
  else if b = JSValue.null then -1
  else
    match a, b with
    | .str x, .str y =>
      match dir with
      | .asc => localeCompare x y
      | .desc => localeCompare y x
    | .num x, .num y =>
      match dir with
      | .asc => x - y
      | .desc => y - x
    | _, _ => 0

/-- Stable merge of two lists: take from the left while its head does not
compare after the right's head. -/
def jsMerge (le : α → α → Bool) : List α → List α → List α
  | [], ys => ys
  | xs, [] => xs
  | x :: xs, y :: ys =>
    if le x y then x :: jsMerge le xs (y :: ys) else y :: jsMerge le (x :: xs) ys
termination_by xs ys => xs.length + ys.length

/-- Stable merge sort, the model of `Array.prototype.sort` (stable per
ES2019) under the given comparator-derived precedence. -/
def jsSortBy (le : α → α → Bool) (l : List α) : List α :=
  match l with
  | [] => []
  | [a] => [a]
  | a :: b :: rest =>
    jsMerge le
      (jsSortBy le ((a :: b :: rest).take ((a :: b :: rest).length / 2)))
      (jsSortBy le ((a :: b :: rest).drop ((a :: b :: rest).length / 2)))
termination_by l.length
decreasing_by
  all_goals simp [List.length_take, List.length_drop]
  all_goals omega

/-- `ResultsTable.sortedResults`
(`src/frontend/src/components/MethodologySection.tsx`, lines 52–74): with
no sort configuration the rows pass through; otherwise a copy of the rows
is sorted by the comparator for the configured key and direction. -/
def sortedResults (results : List AnalysisResult) :
    Option (FieldKey × SortDirection) → List AnalysisResult
  | none => results
  | some (key, dir) =>
    jsSortBy
      (fun a b => jsCompare dir (getField a key) (getField b key) ≤ 0)
      results

/-- One step of `ContactDistribution`'s `forEach` accumulation
(`src/unnamed/part_002`, lines 11–20): increment the tally of key `k`,
appending a fresh entry when absent. -/
def bump (m : List (Nat × Nat)) (k : Nat) : List (Nat × Nat) :=
  match m with
  | [] => [(k, 1)]
  | (k', v) :: rest =>
    if k' = k then (k', v + 1) :: rest else (k', v) :: bump rest k

/-- `ContactDistribution`'s chart data (`src/unnamed/part_002`,
lines 11–20): tally rows by `Total_Contacts`, then emit
`(contacts, deals)` entries sorted ascending by `contacts`. -/
def contactDistribution (results : List AnalysisResult) : List (Nat × Nat) :=
  (results.foldl (fun m r => bump m r.Total_Contacts) []).insertionSort
    (fun a b => a.1 ≤ b.1)

/-- The tally recorded for key `k` in an association list (`0` when the
key is absent), reading the first matching entry like a JS object lookup. -/
def lookupCount (m : List (Nat × Nat)) (k : Nat) : Nat :=
  match m with
  | [] => 0
  | (k', v) :: rest => if k' = k then v else lookupCount rest k

instance : IsTotal (Nat × Nat) (fun a b => a.1 ≤ b.1) :=
  ⟨fun a b => Nat.le_total a.1 b.1⟩

instance : IsTrans (Nat × Nat) (fun a b => a.1 ≤ b.1) :=
  ⟨fun _ _ _ h₁ h₂ => le_trans h₁ h₂⟩

/-- A list decomposes into a prefix on which `pnull` is false followed by
a suffix on which it is true: every "null" element sits after every
"non-null" one. -/
def nullsSuffix {α : Type} (pnull : α → Bool) (l : List α) : Prop :=
  ∃ pre post, l = pre ++ post ∧ (∀ x ∈ pre, pnull x = false) ∧
    (∀ x ∈ post, pnull x = true)

theorem expectChar_length {c : Char} {cs r : List Char}
    (h : expectChar c cs = some r) : r.length + 1 = cs.length := by
  cases cs with
  | nil => simp [expectChar] at h
  | cons x xs =>
    by_cases hx : x = c <;> simp [expectChar, hx] at h
    subst h; simp

theorem expectDigits_length {n acc : Nat} {cs : List Char} {v : Nat}
    {r : List Char} (h : expectDigits n acc cs = some (v, r)) :
    r.length + n = cs.length := by
  induction n generalizing acc cs v r with
  | zero => simp [expectDigits] at h; simp [h.2]
  | succ n ih =>
    cases cs with
    | nil => simp [expectDigits] at h
    | cons x xs =>
      by_cases hx : x.isDigit <;> simp [expectDigits, hx] at h
      have := ih h
      simpa [Nat.succ_eq_add_one] using by omega

theorem matchChannelTok_length {cs r : List Char} {ch : Channel}
    (h : matchChannelTok cs = some (ch, r)) : r.length + 2 ≤ cs.length := by
  match cs with
  | [] => simp [matchChannelTok] at h
  | [c1] => simp [matchChannelTok] at h
  | c1 :: c2 :: c3 :: rest =>
    simp only [matchChannelTok] at h
    split at h
    · simp only [Option.some.injEq, Prod.mk.injEq] at h
      rw [← h.2]; simp
    · split at h
      · simp only [Option.some.injEq, Prod.mk.injEq] at h
        rw [← h.2]; simp
      · split at h
        · simp only [Option.some.injEq, Prod.mk.injEq] at h
          rw [← h.2]; simp
        · simp at h
  | [c1, c2] =>
    simp only [matchChannelTok] at h
    split at h
    · simp only [Option.some.injEq, Prod.mk.injEq] at h
      rw [← h.2]; simp
    · split at h
      · simp only [Option.some.injEq, Prod.mk.injEq] at h
        rw [← h.2]; simp
      · simp at h

theorem matchEventAt_length {cs r : List Char} {e : ContactEvent}
    (h : matchEventAt cs = some (e, r)) : r.length < cs.length := by
  simp only [matchEventAt, Option.bind_eq_some] at h
  obtain ⟨r1, h1, h'⟩ := h
  by_cases hds : (r1.takeWhile Char.isDigit).isEmpty
  · simp [hds] at h'
  · simp only [if_neg hds, Option.bind_eq_some, Option.map_eq_some'] at h'
    obtain ⟨r3, h3, r4, h4, ⟨ch, c5⟩, h5, r6, h6, r7, h7, r8, h8,
      ⟨mm, c9⟩, h9, r10, h10, ⟨yy, c11⟩, h11, hfin⟩ := h'
    have l1 := expectChar_length h1
    have l2 : (r1.dropWhile Char.isDigit).length ≤ r1.length :=
      (List.dropWhile_sublist Char.isDigit).length_le
    have l3 := expectChar_length h3
    have l4 := expectChar_length h4
    have l5 := matchChannelTok_length h5
    have l6 := expectChar_length h6
    have l7 := expectChar_length h7
    have l8 := expectChar_length h8
    have l9 := expectDigits_length h9
    have l10 := expectChar_length h10
    have l11 := expectDigits_length h11
    have : r = c11 := by simpa using congrArg Prod.snd hfin.symm
    subst this
    dsimp only at l6 l10
    omega

theorem parseFuel_nil (fuel : Nat) : parseFuel fuel [] = [] := by
  cases fuel <;> rfl

theorem parseFuel_irrel :
    ∀ (n : Nat) (cs : List Char), cs.length ≤ n →
      ∀ f₁ f₂, cs.length ≤ f₁ → cs.length ≤ f₂ →
        parseFuel f₁ cs = parseFuel f₂ cs := by
  intro n
  induction n using Nat.strong_induction_on with
  | _ n ih =>
    intro cs hn f₁ f₂ h₁ h₂
    cases cs with
    | nil => simp [parseFuel_nil]
    | cons c cs' =>
      cases f₁ with
      | zero => simp at h₁
      | succ g₁ =>
        cases f₂ with
        | zero => simp at h₂
        | succ g₂ =>
          simp only [parseFuel]
          cases hm : matchEventAt (c :: cs') with
          | some p =>
            obtain ⟨e, rest⟩ := p
            have hlt := matchEventAt_length hm
            have hrest : rest.length < n := by
              simp at hn hlt ⊢; omega
            dsimp only
            congr 1
            exact ih rest.length hrest rest le_rfl g₁ g₂
              (by simp at hlt h₁; omega) (by simp at hlt h₂; omega)
          | none =>
            have hcs : cs'.length < n := by simp at hn; omega
            dsimp only
            exact ih cs'.length hcs cs' le_rfl g₁ g₂
              (by simp at h₁; omega) (by simp at h₂; omega)

theorem parseEvents_emit {cs rest : List Char} {e : ContactEvent}
    (h : matchEventAt cs = some (e, rest)) :
    parseEvents cs = e :: parseEvents rest := by
  have hlt := matchEventAt_length h
  cases hcs : cs with
  | nil => subst hcs; simp [matchEventAt, expectChar] at h
  | cons c cs' =>
    subst hcs
    simp only [parseEvents, List.length_cons, parseFuel, h]
    congr 1
    exact parseFuel_irrel cs'.length rest (by simp at hlt; omega) cs'.length
      rest.length (by simp at hlt; omega) le_rfl

theorem parseEvents_skip {c : Char} {cs : List Char}
    (h : matchEventAt (c :: cs) = none) :
    parseEvents (c :: cs) = parseEvents cs := by
  simp only [parseEvents, List.length_cons, parseFuel, h]

theorem head?_filter {α : Type} (p : α → Bool) (l : List α) :
    (l.filter p).head? = l.find? p := by
  induction l with
  | nil => rfl
  | cons a t ih => by_cases h : p a <;> simp [List.filter_cons, List.find?, h, ih]

theorem countP_channels (l : List ContactEvent) :
    l.countP (fun e => e.channel == Channel.CC) +
        l.countP (fun e => e.channel == Channel.SMS) +
        l.countP (fun e => e.channel == Channel.DM) = l.length := by
  induction l with
  | nil => rfl
  | cons e t ih => cases hc : e.channel <;> simp [List.countP_cons, hc] <;> omega

/-- C6: every `MatchedResult` exposed at the output interface carries
exactly the thirteen fixed field names `Address` … `Match_Found` in order,
preserved verbatim, with exactly `First_Contact_Date`,
`Last_Contact_Date`, `Days_to_Close` and `Days_Since_Last_Contact`
nullable and the rest non-nullable (settled against the `AnalysisResult`
interface declaration, `src/unnamed/part_003`). -/
theorem analysisResult_field_contract :
    analysisResultFields.map Prod.fst =
      ["Address", "Date_Closed", "Lead_Source", "Total_Contacts", "CC_Count",
       "SMS_Count", "DM_Count", "First_Contact_Date", "Last_Contact_Date",
       "Days_to_Close", "Days_Since_Last_Contact", "Contact_Timeline",
       "Match_Found"] ∧
    analysisResultFields.length = 13 ∧
    (analysisResultFields.filter Prod.snd).map Prod.fst =
      ["First_Contact_Date", "Last_Contact_Date", "Days_to_Close",
       "Days_Since_Last_Contact"] := by
  refine ⟨rfl, rfl, rfl⟩

/-- C7: `normalize` is pure and total — every input string yields a
normalized output — and the §8 example pair agrees on `street_only`: the
unit is stripped, abbreviations are expanded, case and punctuation are
removed. -/
theorem normalize_street_only_contract :
    (∀ raw : String, ∃ out : NormalizedAddress, normalize raw = out) ∧
    (normalize "123 N. Main St., Apt 4B").street_only =
      (normalize "123 north main street").street_only := by
  exact ⟨fun raw => ⟨normalize raw, rfl⟩, by decide⟩

/-- C5: `parse` is total, extracts every non-overlapping occurrence of
`(<id>) <CHANNEL> - <MM>-<YYYY>` left-to-right (a recognized entry is
emitted and scanning resumes after it; an unrecognized head character is
silently skipped), and the §8 example yields exactly the events
`{CC, 2024-03}` then `{SMS, 2024-04}`. -/
theorem parse_tag_extraction :
    parse "(8020) CC - 03-2024 (8020) SMS - 04-2024" =
      [⟨Channel.CC, ⟨2024, 3, 1⟩⟩, ⟨Channel.SMS, ⟨2024, 4, 1⟩⟩] ∧
    (∀ tags : String, ∃ evs : List ContactEvent, parse tags = evs) ∧
    (∀ (cs rest : List Char) (e : ContactEvent),
      matchEventAt cs = some (e, rest) →
        parseEvents cs = e :: parseEvents rest) ∧
    (∀ (c : Char) (cs : List Char),
      matchEventAt (c :: cs) = none → parseEvents (c :: cs) = parseEvents cs) :=
  ⟨by decide, fun tags => ⟨parse tags, rfl⟩,
    fun _ _ _ h => parseEvents_emit h, fun _ _ h => parseEvents_skip h⟩

/-- Witness for `parse_tag_extraction`: the emit and skip hypotheses are
satisfiable at concrete inputs. -/
theorem parse_tag_extraction_witness :
    parseEvents ("(8020) CC - 03-2024".data) =
      ⟨Channel.CC, ⟨2024, 3, 1⟩⟩ :: parseEvents [] ∧
    parseEvents ('x' :: "(1) DM - 01-2024".data) =
      parseEvents ("(1) DM - 01-2024".data) :=
  ⟨parse_tag_extraction.2.2.1 _ _ _ (by decide),
    parse_tag_extraction.2.2.2 _ _ (by decide)⟩

/-- C1: every `MatchedResult` produced by a run satisfies
`total_contacts = cc_count + sms_count + dm_count`, and when
`match_found` is false all count fields are zero and all date fields are
null. -/
theorem runAnalysis_result_invariants (asOf : Date) (deals : List DealRecord)
    (contacts : List ContactRecord) (r : MatchedResult)
    (hr : r ∈ runAnalysis asOf deals contacts) :
    r.total_contacts = r.cc_count + r.sms_count + r.dm_count ∧
    (r.match_found = false →
      r.total_contacts = 0 ∧ r.cc_count = 0 ∧ r.sms_count = 0 ∧
      r.dm_count = 0 ∧ r.first_contact_date = none ∧
      r.last_contact_date = none ∧ r.days_to_close = none ∧
      r.days_since_last_contact = none) := by
  simp only [runAnalysis, List.mem_map] at hr
  obtain ⟨d, -, rfl⟩ := hr
  unfold processDeal attributeDeal
  cases matchContact d contacts <;> simp

/-- Witness for `runAnalysis_result_invariants`: the membership hypothesis
is satisfiable at a concrete one-deal run. -/
theorem runAnalysis_result_invariants_witness :
    (processDeal ⟨2025, 1, 1⟩ [] ⟨"1 Elm St", ⟨2024, 5, 1⟩, "web"⟩).total_contacts =
      (processDeal ⟨2025, 1, 1⟩ [] ⟨"1 Elm St", ⟨2024, 5, 1⟩, "web"⟩).cc_count +
        (processDeal ⟨2025, 1, 1⟩ [] ⟨"1 Elm St", ⟨2024, 5, 1⟩, "web"⟩).sms_count +
        (processDeal ⟨2025, 1, 1⟩ [] ⟨"1 Elm St", ⟨2024, 5, 1⟩, "web"⟩).dm_count :=
  (runAnalysis_result_invariants ⟨2025, 1, 1⟩ [⟨"1 Elm St", ⟨2024, 5, 1⟩, "web"⟩]
    [] _ (by decide)).1

/-- C2: `aggregate` satisfies `matched + unmatched = total` on every
input, the match rate is `matched / total` with a `0` fallback when
`total = 0` (in particular on the empty input), and — being a total
function into `ℚ` with a guarded division — never raises a division
error. -/
theorem aggregate_invariants (results : List MatchedResult) :
    (aggregate results).Matched_Deals + (aggregate results).Unmatched_Deals =
      (aggregate results).Total_Deals ∧
    ((aggregate results).Total_Deals = 0 → (aggregate results).Match_Rate = 0) ∧
    ((aggregate results).Total_Deals ≠ 0 →
      (aggregate results).Match_Rate =
        ((aggregate results).Matched_Deals : ℚ) /
          ((aggregate results).Total_Deals : ℚ)) ∧
    (aggregate ([] : List MatchedResult)).Match_Rate = 0 := by
  refine ⟨?_, ?_, ?_, rfl⟩
  · simp only [aggregate]
    rw [← List.countP_eq_length_filter, ← List.countP_eq_length_filter]
    have hp : (fun r : MatchedResult => !r.match_found) =
        (fun a : MatchedResult => decide ¬(a.match_found = true)) := by
      funext a; cases a.match_found <;> rfl
    rw [hp]
    exact (List.length_eq_countP_add_countP
      (fun r : MatchedResult => r.match_found) results).symm
  · intro h
    simp only [aggregate] at h ⊢
    simp [h]
  · intro h
    simp only [aggregate] at h ⊢
    rw [if_neg h]

/-- Witness for `aggregate_invariants`: the zero-total hypothesis is
satisfiable at the empty run. -/
theorem aggregate_invariants_witness :
    (aggregate ([] : List MatchedResult)).Total_Deals = 0 ∧
    (aggregate ([] : List MatchedResult)).Match_Rate = 0 :=
  ⟨rfl, (aggregate_invariants []).2.1 rfl⟩

/-- C4: attribution counts exactly the parsed events strictly before the
close date (`total_contacts` is the size of that filtered set, and a date
is never strictly before itself, so same-day events are excluded); a
matched contact whose events all fail the cutoff keeps
`match_found = true` with all counts zero; and the §8 end-to-end example
(deal closed 2024-07-15, tags `(1) CC - 06-2024 (1) DM - 08-2024`) yields
`match_found = true`, `cc_count = 1`, `dm_count = 0`,
`total_contacts = 1`. -/
theorem attributeDeal_cutoff :
    (∀ (asOf : Date) (deal : DealRecord) (c : ContactRecord),
      (attributeDeal asOf deal (some c)).total_contacts =
        ((parse c.tags).filter
          (fun e => Date.ltb e.event_date deal.date_closed)).length) ∧
    (∀ d : Date, Date.ltb d d = false) ∧
    (∀ (asOf : Date) (deal : DealRecord) (c : ContactRecord),
      (∀ e ∈ parse c.tags, Date.ltb e.event_date deal.date_closed = false) →
        (attributeDeal asOf deal (some c)).match_found = true ∧
        (attributeDeal asOf deal (some c)).total_contacts = 0 ∧
        (attributeDeal asOf deal (some c)).cc_count = 0 ∧
        (attributeDeal asOf deal (some c)).sms_count = 0 ∧
        (attributeDeal asOf deal (some c)).dm_count = 0) ∧
    ((processDeal ⟨2025, 1, 1⟩
        [⟨"456 oak avenue", "(1) CC - 06-2024 (1) DM - 08-2024"⟩]
        ⟨"456 Oak Ave", ⟨2024, 7, 15⟩, ""⟩).match_found = true ∧
      (processDeal ⟨2025, 1, 1⟩
        [⟨"456 oak avenue", "(1) CC - 06-2024 (1) DM - 08-2024"⟩]
        ⟨"456 Oak Ave", ⟨2024, 7, 15⟩, ""⟩).cc_count = 1 ∧
      (processDeal ⟨2025, 1, 1⟩
        [⟨"456 oak avenue", "(1) CC - 06-2024 (1) DM - 08-2024"⟩]
        ⟨"456 Oak Ave", ⟨2024, 7, 15⟩, ""⟩).dm_count = 0 ∧
      (processDeal ⟨2025, 1, 1⟩
        [⟨"456 oak avenue", "(1) CC - 06-2024 (1) DM - 08-2024"⟩]
        ⟨"456 Oak Ave", ⟨2024, 7, 15⟩, ""⟩).total_contacts = 1) := by
  refine ⟨?_, ?_, ?_, by decide⟩
  · intro asOf deal c
    simp only [attributeDeal]
    exact countP_channels _
  · intro d
    simp [Date.ltb]
  · intro asOf deal c h
    have hevs : (parse c.tags).filter
        (fun e => Date.ltb e.event_date deal.date_closed) = [] :=
      List.filter_eq_nil_iff.mpr (by simpa using h)
    simp [attributeDeal, hevs]

/-- Witness for `attributeDeal_cutoff`: the all-events-after-close
hypothesis is satisfiable at a matched contact whose only event postdates
the close. -/
theorem attributeDeal_cutoff_witness :
    (attributeDeal ⟨2025, 1, 1⟩ ⟨"9 Pine Rd", ⟨2024, 1, 1⟩, ""⟩
        (some ⟨"9 pine road", "(2) SMS - 05-2024"⟩)).match_found = true ∧
    (attributeDeal ⟨2025, 1, 1⟩ ⟨"9 Pine Rd", ⟨2024, 1, 1⟩, ""⟩
        (some ⟨"9 pine road", "(2) SMS - 05-2024"⟩)).total_contacts = 0 :=
  have h := attributeDeal_cutoff.2.2.1 ⟨2025, 1, 1⟩ ⟨"9 Pine Rd", ⟨2024, 1, 1⟩, ""⟩
    ⟨"9 pine road", "(2) SMS - 05-2024"⟩ (by decide)
  ⟨h.1, h.2.1⟩

/-- C3: the three matching tiers are evaluated in the fixed order
exact-full, street-only, street-number-plus-city; the first tier with at
least one candidate decides the result, which is the first candidate in
the contact input order; and when all three tiers are empty the result is
`null`. -/
theorem matchContact_tier_order (deal : DealRecord)
    (contacts : List ContactRecord) :
    (contacts.filter (tier1Matches (normalize deal.address)) ≠ [] →
      matchContact deal contacts =
        (contacts.filter (tier1Matches (normalize deal.address))).head?) ∧
    (contacts.filter (tier1Matches (normalize deal.address)) = [] →
      contacts.filter (tier2Matches (normalize deal.address)) ≠ [] →
      matchContact deal contacts =
        (contacts.filter (tier2Matches (normalize deal.address))).head?) ∧
    (contacts.filter (tier1Matches (normalize deal.address)) = [] →
      contacts.filter (tier2Matches (normalize deal.address)) = [] →
      matchContact deal contacts =
        (contacts.filter (tier3Matches (normalize deal.address))).head?) ∧
    (contacts.filter (tier1Matches (normalize deal.address)) = [] →
      contacts.filter (tier2Matches (normalize deal.address)) = [] →
      contacts.filter (tier3Matches (normalize deal.address)) = [] →
      matchContact deal contacts = none) := by
  have e1 := head?_filter (tier1Matches (normalize deal.address)) contacts
  have e2 := head?_filter (tier2Matches (normalize deal.address)) contacts
  have e3 := head?_filter (tier3Matches (normalize deal.address)) contacts
  refine ⟨?_, ?_, ?_, ?_⟩
  · intro h1
    cases hf : contacts.find? (tier1Matches (normalize deal.address)) with
    | none => exact absurd (List.head?_eq_none_iff.mp (e1.trans hf)) h1
    | some c => simp [matchContact, hf, e1]
  · intro h1 h2
    have hf1 : contacts.find? (tier1Matches (normalize deal.address)) = none := by
      rw [← e1, h1]; rfl
    cases hf : contacts.find? (tier2Matches (normalize deal.address)) with
    | none => exact absurd (List.head?_eq_none_iff.mp (e2.trans hf)) h2
    | some c => simp [matchContact, hf1, hf, e2]
  · intro h1 h2
    have hf1 : contacts.find? (tier1Matches (normalize deal.address)) = none := by
      rw [← e1, h1]; rfl
    have hf2 : contacts.find? (tier2Matches (normalize deal.address)) = none := by
      rw [← e2, h2]; rfl
    simp [matchContact, hf1, hf2, e3]
  · intro h1 h2 h3
    have hf1 : contacts.find? (tier1Matches (normalize deal.address)) = none := by
      rw [← e1, h1]; rfl
    have hf2 : contacts.find? (tier2Matches (normalize deal.address)) = none := by
      rw [← e2, h2]; rfl
    have hf3 : contacts.find? (tier3Matches (normalize deal.address)) = none := by
      rw [← e3, h3]; rfl
    simp [matchContact, hf1, hf2, hf3]

/-- Witness for `matchContact_tier_order`: a deal whose address misses
tier 1 but hits tier 2 (same street, different full form because of the
city segment). -/
theorem matchContact_tier_order_witness :
    matchContact ⟨"12 Main St", ⟨2024, 1, 1⟩, ""⟩
        [⟨"12 Main St, Springfield", "t"⟩] =
      ([⟨"12 Main St, Springfield", "t"⟩].filter
        (tier2Matches (normalize "12 Main St"))).head? :=
  (matchContact_tier_order ⟨"12 Main St", ⟨2024, 1, 1⟩, ""⟩
    [⟨"12 Main St, Springfield", "t"⟩]).2.1 (by decide) (by decide)

theorem parRun_step_getElem (asOf : Date) (deals : List DealRecord)
    (contacts : List ContactRecord) :
    ∀ (sched : List Nat) (acc : List (Option MatchedResult)),
      acc.length = deals.length → ∀ j : Nat,
      (sched.foldl
        (fun acc i =>
          match deals[i]? with
          | some d => acc.set i (some (processDeal asOf contacts d))
          | none => acc) acc)[j]? =
        if j ∈ sched ∧ j < deals.length
        then some ((deals[j]?).map (processDeal asOf contacts))
        else acc[j]? := by
  intro sched
  induction sched with
  | nil => intro acc hlen j; simp
  | cons i rest ih =>
    intro acc hlen j
    rw [List.foldl_cons]
    have hlen' : (match deals[i]? with
        | some d => acc.set i (some (processDeal asOf contacts d))
        | none => acc).length = deals.length := by
      cases hd : deals[i]? <;> simp [hlen]
    rw [ih _ hlen' j]
    by_cases hjr : j ∈ rest
    · by_cases hjn : j < deals.length
      · simp [hjr, hjn, List.mem_cons]
      · simp only [hjr, hjn, and_false, if_false]
        cases hd : deals[i]? with
        | none => rfl
        | some d =>
          have hi : i < deals.length := by
            by_contra hni
            rw [List.getElem?_eq_none (by omega)] at hd
            exact Option.noConfusion hd
          exact List.getElem?_set_ne (by omega)
    · rw [if_neg (fun hc => hjr hc.1)]
      by_cases hij : i = j
      · subst hij
        by_cases hin : i < deals.length
        · have hd : deals[i]? = some deals[i] := List.getElem?_eq_getElem hin
          rw [if_pos ⟨List.mem_cons_self i rest, hin⟩, hd]
          exact List.getElem?_set_self (by omega)
        · have hd : deals[i]? = none := List.getElem?_eq_none (by omega)
          rw [if_neg (fun hc => hin hc.2), hd]
      · rw [if_neg (fun hc =>
          (List.mem_cons.mp hc.1).elim (fun h => hij h.symm) hjr)]
        cases hd : deals[i]? with
        | none => rfl
        | some d => exact List.getElem?_set_ne hij

/-- C8: a run is a pure function of its inputs: the output row sequence
has one row per deal in input deal order (row `i` is the attribution of
deal `i`), and performing the independent per-deal units of work in any
schedule — any permutation of the deal indices — fills the output vector
with exactly the same rows, so execution order cannot affect results. -/
theorem engine_deterministic_order (asOf : Date) (deals : List DealRecord)
    (contacts : List ContactRecord) :
    (runAnalysis asOf deals contacts).length = deals.length ∧
    (∀ i : Nat, (runAnalysis asOf deals contacts)[i]? =
      (deals[i]?).map (processDeal asOf contacts)) ∧
    (∀ sched : List Nat, sched.Perm (List.range deals.length) →
      parRun sched asOf deals contacts =
        (runAnalysis asOf deals contacts).map some) := by
  refine ⟨by simp [runAnalysis], ?_, ?_⟩
  · intro i
    simp [runAnalysis, List.getElem?_map]
  · intro sched hperm
    apply List.ext_getElem?
    intro j
    have hmem : ∀ k : Nat, k ∈ sched ↔ k < deals.length := by
      intro k
      rw [hperm.mem_iff, List.mem_range]
    rw [parRun, parRun_step_getElem asOf deals contacts sched _ (by simp)]
    by_cases hj : j < deals.length
    · rw [if_pos ⟨(hmem j).mpr hj, hj⟩]
      simp [runAnalysis, List.getElem?_map, List.getElem?_eq_getElem hj]
    · rw [if_neg (fun hc => hj hc.2)]
      have h1 : (List.replicate deals.length (none : Option MatchedResult))[j]? =
          none := by
        rw [List.getElem?_replicate, if_neg hj]
      have h2 : ((runAnalysis asOf deals contacts).map some)[j]? = none := by
        rw [List.getElem?_eq_none]
        simp [runAnalysis]
        omega
      rw [h1, h2]

/-- Witness for `engine_deterministic_order`: processing a two-deal run
in reversed schedule order reproduces the input-order output. -/
theorem engine_deterministic_order_witness :
    parRun [1, 0] ⟨2025, 1, 1⟩
        [⟨"1 A St", ⟨2024, 1, 2⟩, ""⟩, ⟨"2 B Ave", ⟨2024, 2, 3⟩, ""⟩] [] =
      (runAnalysis ⟨2025, 1, 1⟩
        [⟨"1 A St", ⟨2024, 1, 2⟩, ""⟩, ⟨"2 B Ave", ⟨2024, 2, 3⟩, ""⟩] []).map
        some :=
  (engine_deterministic_order ⟨2025, 1, 1⟩
    [⟨"1 A St", ⟨2024, 1, 2⟩, ""⟩, ⟨"2 B Ave", ⟨2024, 2, 3⟩, ""⟩] []).2.2
    [1, 0] (by decide)

theorem bump_lookup (m : List (Nat × Nat)) (k j : Nat) :
    lookupCount (bump m k) j =
      if j = k then lookupCount m j + 1 else lookupCount m j := by
  induction m with
  | nil =>
    by_cases h : j = k
    · subst h; simp [bump, lookupCount]
    · have h' : ¬(k = j) := fun hh => h hh.symm
      simp [bump, lookupCount, h, h']
  | cons p rest ih =>
    obtain ⟨k', v⟩ := p
    by_cases hk : k' = k
    · subst hk
      by_cases hj : j = k'
      · subst hj; simp [bump, lookupCount]
      · have hj' : ¬(k' = j) := fun hh => hj hh.symm
        simp [bump, lookupCount, hj, hj']
    · by_cases hj : k' = j
      · subst hj
        simp [bump, lookupCount, hk]
      · simp [bump, lookupCount, hk, hj, ih]

theorem bump_sum (m : List (Nat × Nat)) (k : Nat) :
    ((bump m k).map Prod.snd).sum = (m.map Prod.snd).sum + 1 := by
  induction m with
  | nil => simp [bump]
  | cons p rest ih =>
    obtain ⟨k', v⟩ := p
    by_cases hk : k' = k <;> simp [bump, hk, ih] <;> omega

theorem bump_keys (m : List (Nat × Nat)) (k : Nat) :
    (bump m k).map Prod.fst =
      if k ∈ m.map Prod.fst then m.map Prod.fst else m.map Prod.fst ++ [k] := by
  induction m with
  | nil => simp [bump]
  | cons p rest ih =>
    obtain ⟨k', v⟩ := p
    by_cases hk : k' = k
    · simp [bump, hk]
    · have hk' : ¬(k = k') := fun hh => hk hh.symm
      simp only [bump, if_neg hk, List.map_cons, List.mem_cons, ih]
      by_cases hmem : k ∈ rest.map Prod.fst
      · simp [hmem, hk']
      · simp [hmem, hk']

theorem bump_nodup (m : List (Nat × Nat)) (k : Nat)
    (h : (m.map Prod.fst).Nodup) : ((bump m k).map Prod.fst).Nodup := by
  rw [bump_keys]
  by_cases hmem : k ∈ m.map Prod.fst
  · simpa [hmem] using h
  · rw [if_neg hmem]
    exact h.append (List.nodup_singleton k)
      (fun a ha hb => by simp at hb; subst hb; exact hmem ha)

theorem lookup_entry (m : List (Nat × Nat)) (p : Nat × Nat)
    (hnd : (m.map Prod.fst).Nodup) (hp : p ∈ m) :
    p.2 = lookupCount m p.1 := by
  induction m with
  | nil => simp at hp
  | cons q rest ih =>
    obtain ⟨k', v⟩ := q
    rcases List.mem_cons.mp hp with h | h
    · subst h
      simp [lookupCount]
    · have hk : k' ≠ p.1 := by
        intro hh
        have : p.1 ∈ rest.map Prod.fst := List.mem_map_of_mem Prod.fst h
        rw [← hh] at this
        exact (List.nodup_cons.mp hnd).1 this
      rw [lookupCount, if_neg hk]
      exact ih (List.nodup_cons.mp hnd).2 h

theorem tally_lookup (xs : List Nat) :
    ∀ (m : List (Nat × Nat)) (j : Nat),
      lookupCount (xs.foldl bump m) j =
        lookupCount m j + xs.countP (fun x => x == j) := by
  induction xs with
  | nil => intro m j; simp
  | cons x xs ih =>
    intro m j
    rw [List.foldl_cons, ih, bump_lookup, List.countP_cons]
    by_cases h : j = x
    · subst h; simp; omega
    · have h' : ¬(x = j) := fun hh => h hh.symm
      simp [h, h']

theorem tally_sum (xs : List Nat) :
    ∀ m : List (Nat × Nat),
      ((xs.foldl bump m).map Prod.snd).sum = (m.map Prod.snd).sum + xs.length := by
  induction xs with
  | nil => intro m; simp
  | cons x xs ih =>
    intro m
    rw [List.foldl_cons, ih, bump_sum]
    simp [Nat.add_assoc, Nat.add_comm 1]

theorem tally_nodup (xs : List Nat) :
    ∀ m : List (Nat × Nat),
      (m.map Prod.fst).Nodup → ((xs.foldl bump m).map Prod.fst).Nodup := by
  induction xs with
  | nil => intro m h; simpa using h
  | cons x xs ih =>
    intro m h
    exact ih _ (bump_nodup m x h)

/-- C10: for every result list the contact-count distribution partitions
the input: each entry's `deals` tally is the number of rows whose
`Total_Contacts` equals the entry's `contacts` key, the tallies sum to the
number of rows, and entries are in strictly increasing `contacts` order. -/
theorem contactDistribution_partition (results : List AnalysisResult) :
    (∀ p ∈ contactDistribution results,
      p.2 = results.countP (fun r => r.Total_Contacts == p.1)) ∧
    ((contactDistribution results).map Prod.snd).sum = results.length ∧
    List.Pairwise (fun a b : Nat × Nat => a.1 < b.1)
      (contactDistribution results) := by
  have hfold : results.foldl (fun m r => bump m r.Total_Contacts) [] =
      (results.map (fun r => r.Total_Contacts)).foldl bump [] := by
    rw [List.foldl_map]
  have hperm : (contactDistribution results).Perm
      (results.foldl (fun m r => bump m r.Total_Contacts) []) :=
    List.perm_insertionSort _ _
  have hnodup : ((results.foldl (fun m r => bump m r.Total_Contacts) []).map
      Prod.fst).Nodup := by
    rw [hfold]
    exact tally_nodup _ [] (by simp)
  have hlook : ∀ j, lookupCount
      (results.foldl (fun m r => bump m r.Total_Contacts) []) j =
        results.countP (fun r => r.Total_Contacts == j) := by
    intro j
    rw [hfold, tally_lookup]
    simp [lookupCount, List.countP_map]
    rfl
  refine ⟨?_, ?_, ?_⟩
  · intro p hp
    have hpm := hperm.mem_iff.mp hp
    rw [lookup_entry _ p hnodup hpm, hlook p.1]
  · rw [(hperm.map Prod.snd).sum_eq]
    rw [hfold, tally_sum]
    simp
  · have hsorted : List.Sorted (fun a b : Nat × Nat => a.1 ≤ b.1)
        (contactDistribution results) :=
      List.sorted_insertionSort _ _
    have hnd : ((contactDistribution results).map Prod.fst).Nodup :=
      ((hperm.map Prod.fst).nodup_iff).mpr hnodup
    have hne : List.Pairwise (fun a b : Nat × Nat => a.1 ≠ b.1)
        (contactDistribution results) := by
      rw [List.Nodup, List.pairwise_map] at hnd
      exact hnd
    exact (hsorted.and hne).imp (fun h => lt_of_le_of_ne h.1 h.2)

/-- Witness for `contactDistribution_partition`: a three-row table with a
repeated contact count, instantiated at the repeated entry. -/
theorem contactDistribution_partition_witness :
    ((2 : Nat), (2 : Nat)).2 =
      ([⟨"a", "2024-01-01", "web", 2, 2, 0, 0, none, none, none, none, "", true⟩,
        ⟨"b", "2024-01-02", "web", 0, 0, 0, 0, none, none, none, none, "", false⟩,
        ⟨"c", "2024-01-03", "ref", 2, 0, 2, 0, none, none, none, none, "", true⟩] :
          List AnalysisResult).countP
        (fun r => r.Total_Contacts == ((2 : Nat), (2 : Nat)).1) :=
  (contactDistribution_partition
    [⟨"a", "2024-01-01", "web", 2, 2, 0, 0, none, none, none, none, "", true⟩,
     ⟨"b", "2024-01-02", "web", 0, 0, 0, 0, none, none, none, none, "", false⟩,
     ⟨"c", "2024-01-03", "ref", 2, 0, 2, 0, none, none, none, none, "", true⟩]).1
    (2, 2) (by decide)

theorem jsMerge_perm {α : Type} (le : α → α → Bool) :
    ∀ (n : Nat) (xs ys : List α), xs.length + ys.length ≤ n →
      (jsMerge le xs ys).Perm (xs ++ ys) := by
  intro n
  induction n with
  | zero =>
    intro xs ys h
    have hx : xs = [] := List.length_eq_zero.mp (by omega)
    have hy : ys = [] := List.length_eq_zero.mp (by omega)
    subst hx; subst hy
    simp [jsMerge]
  | succ n ih =>
    intro xs ys h
    match xs, ys with
    | [], ys => simp [jsMerge]
    | x :: xs', [] => simp [jsMerge]
    | x :: xs', y :: ys' =>
      simp only [jsMerge]
      by_cases hle : le x y
      · rw [if_pos hle]
        exact (ih xs' (y :: ys') (by simp at h ⊢; omega)).cons x
      · rw [if_neg hle]
        refine ((ih (x :: xs') ys' (by simp at h ⊢; omega)).cons y).trans ?_
        exact List.perm_middle.symm

theorem jsSortBy_perm {α : Type} (le : α → α → Bool) :
    ∀ (n : Nat) (l : List α), l.length ≤ n → (jsSortBy le l).Perm l := by
  intro n
  induction n with
  | zero =>
    intro l h
    have : l = [] := List.length_eq_zero.mp (by omega)
    subst this
    simp [jsSortBy]
  | succ n ih =>
    intro l h
    match l with
    | [] => simp [jsSortBy]
    | [a] => simp [jsSortBy]
    | a :: b :: rest =>
      simp only [jsSortBy]
      have hlen : (a :: b :: rest).length = rest.length + 2 := by simp
      have htake : ((a :: b :: rest).take ((a :: b :: rest).length / 2)).length ≤ n := by
        simp only [List.length_take, hlen]
        simp at h
        omega
      have hdrop : ((a :: b :: rest).drop ((a :: b :: rest).length / 2)).length ≤ n := by
        simp only [List.length_drop, hlen]
        simp at h
        omega
      refine (jsMerge_perm le _ _ _ le_rfl).trans ?_
      refine (List.Perm.append (ih _ htake) (ih _ hdrop)).trans ?_
      rw [List.take_append_drop]

theorem nullsSuffix_nil {α : Type} (pnull : α → Bool) :
    nullsSuffix pnull [] :=
  ⟨[], [], rfl, by simp, by simp⟩

theorem nullsSuffix_cons_false {α : Type} {pnull : α → Bool} {x : α}
    {l : List α} (hx : pnull x = false) (hl : nullsSuffix pnull l) :
    nullsSuffix pnull (x :: l) := by
  obtain ⟨pre, post, rfl, hpre, hpost⟩ := hl
  exact ⟨x :: pre, post, rfl, by simpa [hx] using hpre, hpost⟩

theorem nullsSuffix_all {α : Type} {pnull : α → Bool} {l : List α}
    (h : ∀ x ∈ l, pnull x = true) : nullsSuffix pnull l :=
  ⟨[], l, rfl, by simp, h⟩

theorem nullsSuffix_tail {α : Type} {pnull : α → Bool} {x : α} {l : List α}
    (h : nullsSuffix pnull (x :: l)) (hx : pnull x = false) :
    nullsSuffix pnull l := by
  obtain ⟨pre, post, heq, hpre, hpost⟩ := h
  cases pre with
  | nil =>
    rw [List.nil_append] at heq
    cases post with
    | nil => exact absurd heq (by simp)
    | cons z zs =>
      obtain ⟨rfl, rfl⟩ := List.cons.inj heq
      rw [hpost x (by simp)] at hx
      exact Bool.noConfusion hx
  | cons z zs =>
    obtain ⟨rfl, rfl⟩ := List.cons.inj heq
    exact ⟨zs, post, rfl, fun w hw => hpre w (by simp [hw]), hpost⟩

theorem nullsSuffix_head_true {α : Type} {pnull : α → Bool} {x : α}
    {l : List α} (h : nullsSuffix pnull (x :: l)) (hx : pnull x = true) :
    ∀ z ∈ x :: l, pnull z = true := by
  obtain ⟨pre, post, heq, hpre, hpost⟩ := h
  cases pre with
  | nil =>
    rw [List.nil_append] at heq
    subst heq
    exact hpost
  | cons z zs =>
    obtain ⟨rfl, rfl⟩ := List.cons.inj heq
    rw [hpre x (by simp)] at hx
    exact Bool.noConfusion hx

theorem jsMerge_all_true {α : Type} {pnull : α → Bool} (le : α → α → Bool)
    {xs ys : List α} (hx : ∀ x ∈ xs, pnull x = true)
    (hy : ∀ y ∈ ys, pnull y = true) :
    ∀ z ∈ jsMerge le xs ys, pnull z = true := by
  intro z hz
  have := (jsMerge_perm le (xs.length + ys.length) xs ys le_rfl).mem_iff.mp hz
  rcases List.mem_append.mp this with h | h
  · exact hx z h
  · exact hy z h

theorem jsMerge_nullsSuffix {α : Type} {pnull : α → Bool} {le : α → α → Bool}
    (H1 : ∀ x y, pnull x = true → le x y = false)
    (H2 : ∀ x y, pnull x = false → pnull y = true → le x y = true) :
    ∀ (n : Nat) (xs ys : List α), xs.length + ys.length ≤ n →
      nullsSuffix pnull xs → nullsSuffix pnull ys →
      nullsSuffix pnull (jsMerge le xs ys) := by
  intro n
  induction n with
  | zero =>
    intro xs ys h _ _
    have hx : xs = [] := List.length_eq_zero.mp (by omega)
    have hy : ys = [] := List.length_eq_zero.mp (by omega)
    subst hx; subst hy
    simpa [jsMerge] using nullsSuffix_nil pnull
  | succ n ih =>
    intro xs ys h hxs hys
    match xs, ys with
    | [], ys => simpa [jsMerge] using hys
    | x :: xs', [] => simpa [jsMerge] using hxs
    | x :: xs', y :: ys' =>
      simp only [jsMerge]
      by_cases hle : le x y
      · rw [if_pos hle]
        have hxf : pnull x = false := by
          cases hpx : pnull x with
          | false => rfl
          | true => rw [H1 x y hpx] at hle; exact Bool.noConfusion hle
        exact nullsSuffix_cons_false hxf
          (ih xs' (y :: ys') (by simp at h ⊢; omega)
            (nullsSuffix_tail hxs hxf) hys)
      · rw [if_neg hle]
        cases hpy : pnull y with
        | false =>
          exact nullsSuffix_cons_false hpy
            (ih (x :: xs') ys' (by simp at h ⊢; omega) hxs
              (nullsSuffix_tail hys hpy))
        | true =>
          have hpx : pnull x = true := by
            cases hx : pnull x with
            | true => rfl
            | false => rw [H2 x y hx hpy] at hle; exact absurd rfl hle
          have hallx := nullsSuffix_head_true hxs hpx
          have hally := nullsSuffix_head_true hys hpy
          refine nullsSuffix_all ?_
          intro z hz
          rcases List.mem_cons.mp hz with rfl | hz'
          · exact hpy
          · exact jsMerge_all_true le hallx
              (fun w hw => hally w (by simp [hw])) z hz'

theorem jsSortBy_nullsSuffix {α : Type} {pnull : α → Bool}
    {le : α → α → Bool}
    (H1 : ∀ x y, pnull x = true → le x y = false)
    (H2 : ∀ x y, pnull x = false → pnull y = true → le x y = true) :
    ∀ (n : Nat) (l : List α), l.length ≤ n →
      nullsSuffix pnull (jsSortBy le l) := by
  intro n
  induction n with
  | zero =>
    intro l h
    have : l = [] := List.length_eq_zero.mp (by omega)
    subst this
    simpa [jsSortBy] using nullsSuffix_nil pnull
  | succ n ih =>
    intro l h
    match l with
    | [] => simpa [jsSortBy] using nullsSuffix_nil pnull
    | [a] =>
      simp only [jsSortBy]
      cases ha : pnull a with
      | false => exact nullsSuffix_cons_false ha (nullsSuffix_nil pnull)
      | true => exact nullsSuffix_all (by simpa using ha)
    | a :: b :: rest =>
      simp only [jsSortBy]
      have hlen : (a :: b :: rest).length = rest.length + 2 := by simp
      have htake : ((a :: b :: rest).take ((a :: b :: rest).length / 2)).length ≤ n := by
        simp only [List.length_take, hlen]
        simp at h
        omega
      have hdrop : ((a :: b :: rest).drop ((a :: b :: rest).length / 2)).length ≤ n := by
        simp only [List.length_drop, hlen]
        simp at h
        omega
      exact jsMerge_nullsSuffix H1 H2 _ _ _ le_rfl (ih _ htake) (ih _ hdrop)

/-- C9: for every row list, every sort key and either direction, the
table sort produces a permutation of the rows (the input itself is
untouched — a copy is sorted) in which every row whose value at the key
is null or undefined comes after every row with a non-null value, even in
descending order. -/
theorem sortedResults_nulls_last (results : List AnalysisResult)
    (key : FieldKey) (dir : SortDirection) :
    (sortedResults results (some (key, dir))).Perm results ∧
    ∃ pre post,
      sortedResults results (some (key, dir)) = pre ++ post ∧
      (∀ r ∈ pre, getField r key ≠ JSValue.null) ∧
      (∀ r ∈ post, getField r key = JSValue.null) := by
  constructor
  · exact jsSortBy_perm _ results.length results le_rfl
  · have H1 : ∀ x y : AnalysisResult,
        (getField x key == JSValue.null) = true →
        (decide (jsCompare dir (getField x key) (getField y key) ≤ 0)) = false := by
      intro x y hx
      rw [beq_iff_eq] at hx
      simp [jsCompare, hx]
    have H2 : ∀ x y : AnalysisResult,
        (getField x key == JSValue.null) = false →
        (getField y key == JSValue.null) = true →
        (decide (jsCompare dir (getField x key) (getField y key) ≤ 0)) = true := by
      intro x y hx hy
      rw [beq_iff_eq] at hy
      rw [beq_eq_false_iff_ne] at hx
      simp [jsCompare, hx, hy]
    obtain ⟨pre, post, heq, hpre, hpost⟩ :=
      jsSortBy_nullsSuffix H1 H2 results.length results le_rfl
    refine ⟨pre, post, heq, ?_, ?_⟩
    · intro r hr
      have := hpre r hr
      simpa [beq_eq_false_iff_ne] using this
    · intro r hr
      have := hpost r hr
      simpa [beq_iff_eq] using this

/-- Witness for `sortedResults_nulls_last`: instantiation at a concrete
two-row table sorted descending on the nullable `Days_to_Close` column. -/
theorem sortedResults_nulls_last_witness :
    (sortedResults
        [⟨"a", "2024-01-01", "web", 1, 1, 0, 0, none, none, none, none, "", true⟩,
         ⟨"b", "2024-01-02", "web", 2, 2, 0, 0, some "2023-12-01", some "2023-12-01",
           some 31, some 40, "CC 12-2023", true⟩]
        (some (FieldKey.daysToClose, SortDirection.desc))).Perm
      [⟨"a", "2024-01-01", "web", 1, 1, 0, 0, none, none, none, none, "", true⟩,
       ⟨"b", "2024-01-02", "web", 2, 2, 0, 0, some "2023-12-01", some "2023-12-01",
         some 31, some 40, "CC 12-2023", true⟩] :=
  (sortedResults_nulls_last
    [⟨"a", "2024-01-01", "web", 1, 1, 0, 0, none, none, none, none, "", true⟩,
     ⟨"b", "2024-01-02", "web", 2, 2, 0, 0, some "2023-12-01", some "2023-12-01",
       some 31, some 40, "CC 12-2023", true⟩]
    FieldKey.daysToClose SortDirection.desc).1

end HHB
